import Mathlib

/-!
Shallow embedding of `openrlhf/utils/deepspeed.py` (class `DeepspeedStrategy`):
the checkpoint retention sweep in `save_ckpt`, the EMA update
`moving_average`, the metric collectives `all_reduce` and `all_gather`,
engine preparation `prepare` / `ds_init_train_model`, and the weights-only
`save_model` path under ZeRO stage 3.
-/

namespace OpenRLHF

/-! ### Checkpoint retention sweep (`save_ckpt`, lines 358-400)

A checkpoint subdirectory is modelled by its modification time and its
cumulative file size in bytes (the `os.walk` sum computed by the code).
The sweep repeatedly lists the subdirectories, sorts them by modification
time (oldest first), and, while `len(subdirs) >= max_num or
total_size > MAX_SIZE` holds, deletes the oldest one.  `MAX_SIZE` is
`max_mem * 1024 * 1024 * 1024` bytes.  Python raises `IndexError` at
`subdirs[0]` when the list is empty but the condition still holds (which
happens exactly when `max_num = 0`); the embedding returns `none` there.
-/

structure Dir where
  mtime : ℕ
  size : ℕ
  deriving DecidableEq, Repr

/-- Comparison used by `subdirs.sort(key=lambda x: x[1])`: ascending
modification time. -/
def mtimeLE (a b : Dir) : Prop := a.mtime ≤ b.mtime

instance : DecidableRel mtimeLE := fun a b => Nat.decLe a.mtime b.mtime

instance : IsTotal Dir mtimeLE := ⟨fun a b => Nat.le_total a.mtime b.mtime⟩

instance : IsTrans Dir mtimeLE := ⟨fun _ _ _ h h₂ => Nat.le_trans h h₂⟩

/-- Cumulative size of a set of checkpoint directories (the `total_size`
accumulated over `os.walk` in the loop body). -/
def totalSize (dirs : List Dir) : ℕ := (dirs.map Dir.size).sum

/-- Sorting by modification time, oldest first.  Python `list.sort` is a
stable ascending sort, as is insertion sort. -/
def sortByMtime (dirs : List Dir) : List Dir := List.insertionSort mtimeLE dirs

/-- One `while True` loop of the retention sweep, applied to the current
directory listing already sorted by mtime.  Each iteration re-lists and
re-sorts the directories; since deleting the head of a sorted list leaves a
sorted list (and sorting a sorted list is the identity), recursing directly
on the tail is faithful.  `none` models the `IndexError` Python raises when
`subdirs` is empty yet `len(subdirs) >= max_num` still holds. -/
def sweepSorted (maxNum maxSize : ℕ) : List Dir → Option (List Dir)
  | [] =>
    if maxNum ≤ 0 ∨ totalSize ([] : List Dir) > maxSize then none
    else some []
  | d :: rest =>
    if maxNum ≤ (d :: rest).length ∨ totalSize (d :: rest) > maxSize then
      sweepSorted maxNum maxSize rest
    else some (d :: rest)

/-- The retention sweep of `save_ckpt` on the primary process: sort the
pre-existing checkpoint directories by modification time and evict from the
oldest end until fewer than `max_num` remain and the total size is within
the byte budget `max_mem * 1024 * 1024 * 1024`. -/
def retentionSweep (maxNum maxMem : ℕ) (dirs : List Dir) : Option (List Dir) :=
  sweepSorted maxNum (maxMem * 1024 * 1024 * 1024) (sortByMtime dirs)

/-- Effect of one `save_ckpt` call on the set of checkpoint directories
under the save root, as seen on the primary process: first the retention
sweep runs to a fixed point, then the engine writes the new checkpoint
directory `newCkpt` (the sweep runs before the save, so `newCkpt` is not
accounted against the budget). -/
def save_ckpt (maxNum maxMem : ℕ) (dirs : List Dir) (newCkpt : Dir) :
    Option (List Dir) :=
  (retentionSweep maxNum maxMem dirs).map (fun kept => newCkpt :: kept)

lemma sweepSorted_spec (maxNum maxSize : ℕ) (hmax : 1 ≤ maxNum) :
    ∀ l : List Dir, ∃ k : ℕ,
      sweepSorted maxNum maxSize l = some (l.drop k)
        ∧ (l.drop k).length < maxNum
        ∧ totalSize (l.drop k) ≤ maxSize := by
  intro l
  induction l with
  | nil =>
    refine ⟨0, ?_, ?_, ?_⟩
    · simp [sweepSorted, totalSize]
      omega
    · simpa using hmax
    · simp [totalSize]
  | cons d rest ih =>
    by_cases h : maxNum ≤ (d :: rest).length ∨ totalSize (d :: rest) > maxSize
    · obtain ⟨k, hk, hlen, hsize⟩ := ih
      refine ⟨k + 1, ?_, ?_, ?_⟩
      · rw [sweepSorted, if_pos h]
        simpa using hk
      · simpa using hlen
      · simpa using hsize
    · refine ⟨0, ?_, ?_, ?_⟩
      · rw [sweepSorted, if_neg h, List.drop_zero]
      · push_neg at h
        simpa using h.1
      · push_neg at h
        simpa using h.2

lemma sorted_take_drop {l : List Dir} (hs : List.Sorted mtimeLE l) (k : ℕ) :
    ∀ a ∈ l.take k, ∀ b ∈ l.drop k, a.mtime ≤ b.mtime := by
  have h := hs
  rw [← List.take_append_drop k l, List.Sorted, List.pairwise_append] at h
  exact h.2.2

/-- Number of bytes in one gigabyte, as used by `MAX_SIZE = max_mem * 1024
* 1024 * 1024`. -/
def GiB : ℕ := 1024 * 1024 * 1024

/-- C1 (amended): after `save_ckpt` completes on the primary process with
`max_num ≥ 1`, the retained pre-existing directories are a suffix of the
mtime-sorted listing (so every eviction removed an oldest-mtime directory
first), the total directory count including the new checkpoint is at most
`max_num`, and the retained pre-existing directories fit in the byte
budget; the budget bound does not extend to the new checkpoint itself,
because the sweep runs before the save. -/
theorem save_ckpt_retention_invariant (maxNum maxMem : ℕ) (dirs : List Dir)
    (newCkpt : Dir) (hmax : 1 ≤ maxNum) :
    ∃ k : ℕ,
      save_ckpt maxNum maxMem dirs newCkpt
          = some (newCkpt :: (sortByMtime dirs).drop k)
        ∧ (newCkpt :: (sortByMtime dirs).drop k).length ≤ maxNum
        ∧ totalSize ((sortByMtime dirs).drop k) ≤ maxMem * 1024 * 1024 * 1024
        ∧ (∀ a ∈ (sortByMtime dirs).take k, ∀ b ∈ (sortByMtime dirs).drop k,
            a.mtime ≤ b.mtime) := by
  obtain ⟨k, hk, hlen, hsize⟩ :=
    sweepSorted_spec maxNum (maxMem * 1024 * 1024 * 1024) hmax (sortByMtime dirs)
  refine ⟨k, ?_, ?_, hsize, ?_⟩
  · simp [save_ckpt, retentionSweep, hk]
  · simpa [List.length_cons] using hlen
  · exact sorted_take_drop (List.sorted_insertionSort mtimeLE dirs) k

/-- Witness for C1 at a concrete input: `max_num = 3`, `max_mem = 1`, two
small pre-existing directories and a new checkpoint. -/
theorem save_ckpt_retention_invariant_witness :
    (1 : ℕ) ≤ 3 ∧
    ∃ k : ℕ,
      save_ckpt 3 1 [⟨1, 10⟩, ⟨2, 20⟩] ⟨3, 5⟩
          = some (⟨3, 5⟩ :: (sortByMtime [⟨1, 10⟩, ⟨2, 20⟩]).drop k)
        ∧ (Dir.mk 3 5 :: (sortByMtime [⟨1, 10⟩, ⟨2, 20⟩]).drop k).length ≤ 3
        ∧ totalSize ((sortByMtime [⟨1, 10⟩, ⟨2, 20⟩]).drop k)
            ≤ 1 * 1024 * 1024 * 1024
        ∧ (∀ a ∈ (sortByMtime [⟨1, 10⟩, ⟨2, 20⟩]).take k,
            ∀ b ∈ (sortByMtime [⟨1, 10⟩, ⟨2, 20⟩]).drop k,
              a.mtime ≤ b.mtime) :=
  ⟨by decide, save_ckpt_retention_invariant 3 1 [⟨1, 10⟩, ⟨2, 20⟩] ⟨3, 5⟩ (by decide)⟩

/-- Counterexample to C1 as stated: with `max_mem = 1` (budget `1` GiB), an
empty save root and a new checkpoint of `2` GiB, the save completes and the
cumulative size under the root afterwards exceeds the budget, since the
sweep never accounts for the checkpoint written after it. -/
theorem save_ckpt_size_bound_counterexample :
    save_ckpt 3 1 [] ⟨1, 2 * GiB⟩ = some [⟨1, 2 * GiB⟩]
      ∧ ¬ totalSize [⟨1, 2 * GiB⟩] ≤ 1 * 1024 * 1024 * 1024 := by
  decide

/-- C2 (amended): with pre-existing sizes `[10, 20, 30, 40]` GiB (oldest
first), `max_mem = 50` and `max_num = 10`, one save retains only the newest
pre-existing directory — the sweep loops while the total exceeds the budget,
so the three oldest are removed (not two; `30 + 40 = 70 > 50`) and the
retained pre-existing size is within `50` GiB; with `max_num = 2` and an
ample budget, only the single most-recent pre-existing directory survives
(the sweep keeps at most `max_num - 1` pre-existing directories, so that
together with the new checkpoint at most `max_num` remain). -/
theorem retention_sweep_examples :
    save_ckpt 10 50 [⟨1, 10 * GiB⟩, ⟨2, 20 * GiB⟩, ⟨3, 30 * GiB⟩, ⟨4, 40 * GiB⟩] ⟨5, 0⟩
        = some [⟨5, 0⟩, ⟨4, 40 * GiB⟩]
      ∧ totalSize [⟨4, 40 * GiB⟩] ≤ 50 * GiB
      ∧ save_ckpt 2 1000000 [⟨1, 1⟩, ⟨2, 1⟩, ⟨3, 1⟩, ⟨4, 1⟩] ⟨5, 1⟩
          = some [⟨5, 1⟩, ⟨4, 1⟩] := by
  decide

/-- Counterexample to C2 as stated: the sweep does not stop after removing
the two oldest of `[10, 20, 30, 40]` GiB (it also removes the `30` GiB
directory), and with `max_num = 2` the two most-recent pre-existing
directories do not both survive (only the newest one does). -/
theorem retention_sweep_counterexample :
    retentionSweep 10 50 [⟨1, 10 * GiB⟩, ⟨2, 20 * GiB⟩, ⟨3, 30 * GiB⟩, ⟨4, 40 * GiB⟩]
        ≠ some [⟨3, 30 * GiB⟩, ⟨4, 40 * GiB⟩]
      ∧ retentionSweep 10 50 [⟨1, 10 * GiB⟩, ⟨2, 20 * GiB⟩, ⟨3, 30 * GiB⟩, ⟨4, 40 * GiB⟩]
          = some [⟨4, 40 * GiB⟩]
      ∧ retentionSweep 2 1000000 [⟨1, 1⟩, ⟨2, 1⟩, ⟨3, 1⟩, ⟨4, 1⟩]
          ≠ some [⟨3, 1⟩, ⟨4, 1⟩] := by
  decide

/-! ### EMA update (`moving_average`, lines 242-256; `setup_distributed`, line 83)

A parameter pair is modelled by the live parameter (its `requires_grad`
flag and current data) and the shadow (EMA) value; parameter data is a
single rational, standing for one tensor element in exact arithmetic.  The
strategy state carries the step counter `self.time_steps["ema"]` and the
shadow values.  Both branches of the `stage` test perform the same
assignment `param_ema.data.copy_((1 - beta) * data + beta * param_ema.data)`
(the stage-3 branch merely wraps it in a scoped gather).  Python raises
`ZeroDivisionError` on `% 0`, so `accumulated_gradient = 0` never reaches
the update; theorems assume it is positive. -/

structure Param where
  requiresGrad : Bool
  data : ℚ
  deriving DecidableEq, Repr

structure EmaState where
  timeSteps : ℕ
  shadows : List ℚ
  deriving DecidableEq, Repr

/-- Accumulation steps computed once at `setup_distributed`:
`self.train_batch_size // self.micro_train_batch_size // self.world_size`. -/
def accumulated_gradient (trainBatchSize microTrainBatchSize worldSize : ℕ) : ℕ :=
  trainBatchSize / microTrainBatchSize / worldSize

/-- The blend `(1 - beta) * data + beta * param_ema.data` written into the
shadow parameter. -/
def emaBlend (beta data shadow : ℚ) : ℚ := (1 - beta) * data + beta * shadow

/-- One call of `moving_average`: increment the step counter; when the
incremented counter is divisible by `accumulated_gradient`, blend every
`requires_grad` parameter pair (in matching iteration order), leaving
shadows of frozen parameters untouched; otherwise change nothing but the
counter. -/
def moving_average (accum stage : ℕ) (beta : ℚ) (params : List Param)
    (st : EmaState) : EmaState :=
  let t := st.timeSteps + 1
  if t % accum = 0 then
    { timeSteps := t
    , shadows := (params.zip st.shadows).map (fun pe =>
        if pe.1.requiresGrad then
          if stage ≠ 3 then emaBlend beta pe.1.data pe.2
          else emaBlend beta pe.1.data pe.2
        else pe.2) }
  else { st with timeSteps := t }

/-- Iterated calls of `moving_average` with fixed live parameters. -/
def runMovingAverage (accum stage : ℕ) (beta : ℚ) (params : List Param)
    (n : ℕ) (st : EmaState) : EmaState :=
  (moving_average accum stage beta params)^[n] st

lemma moving_average_of_not_dvd (accum stage : ℕ) (beta : ℚ)
    (params : List Param) (st : EmaState)
    (h : (st.timeSteps + 1) % accum ≠ 0) :
    moving_average accum stage beta params st
      = { st with timeSteps := st.timeSteps + 1 } := by
  simp [moving_average, h]

lemma moving_average_of_dvd (accum stage : ℕ) (beta : ℚ)
    (params : List Param) (st : EmaState)
    (h : (st.timeSteps + 1) % accum = 0) :
    moving_average accum stage beta params st
      = { timeSteps := st.timeSteps + 1
        , shadows := (params.zip st.shadows).map (fun pe =>
            if pe.1.requiresGrad then
              if stage ≠ 3 then emaBlend beta pe.1.data pe.2
              else emaBlend beta pe.1.data pe.2
            else pe.2) } := by
  simp [moving_average, h]

lemma runMovingAverage_noop (accum stage : ℕ) (beta : ℚ) (params : List Param) :
    ∀ (n k : ℕ) (sh : List ℚ), k + n < accum →
      runMovingAverage accum stage beta params n ⟨k, sh⟩ = ⟨k + n, sh⟩ := by
  intro n
  induction n with
  | zero => intro k sh _; simp [runMovingAverage]
  | succ n ih =>
    intro k sh hlt
    have hne : (k + 1) % accum ≠ 0 := by
      rw [Nat.mod_eq_of_lt (by omega)]
      omega
    have hstep : moving_average accum stage beta params ⟨k, sh⟩ = ⟨k + 1, sh⟩ :=
      moving_average_of_not_dvd accum stage beta params ⟨k, sh⟩ hne
    calc runMovingAverage accum stage beta params (n + 1) ⟨k, sh⟩
        = runMovingAverage accum stage beta params n
            (moving_average accum stage beta params ⟨k, sh⟩) := by
          simp [runMovingAverage, Function.iterate_succ_apply]
      _ = runMovingAverage accum stage beta params n ⟨k + 1, sh⟩ := by rw [hstep]
      _ = ⟨k + 1 + n, sh⟩ := ih (k + 1) sh (by omega)
      _ = ⟨k + (n + 1), sh⟩ := by rw [EmaState.mk.injEq]; exact ⟨by omega, rfl⟩

/-- C3: a `moving_average` call mutates no shadow unless the incremented
step counter is divisible by `accumulated_gradient`; after exactly
`accumulated_gradient` calls starting from a fresh counter with fixed beta
and live values, each `requires_grad` shadow `S` with live value `L` equals
`beta * S + (1 - beta) * L`; and a shadow whose live parameter has
`requires_grad = false` is never written by any call. -/
theorem moving_average_spec (accum stage : ℕ) (beta : ℚ) (params : List Param)
    (shadows : List ℚ) (hacc : 0 < accum) :
    (∀ st : EmaState, (st.timeSteps + 1) % accum ≠ 0 →
        (moving_average accum stage beta params st).shadows = st.shadows)
      ∧ runMovingAverage accum stage beta params accum ⟨0, shadows⟩
          = ⟨accum, (params.zip shadows).map (fun pe =>
              if pe.1.requiresGrad then beta * pe.2 + (1 - beta) * pe.1.data
              else pe.2)⟩
      ∧ (∀ st : EmaState, ∀ i : Fin (params.zip st.shadows).length,
          ((params.zip st.shadows).get i).1.requiresGrad = false →
            (moving_average accum stage beta params st).shadows.getD i.1 0
              = st.shadows.getD i.1 0) := by
  have hfun : ∀ pe : Param × ℚ,
      (if pe.1.requiresGrad then
          if stage ≠ 3 then emaBlend beta pe.1.data pe.2
          else emaBlend beta pe.1.data pe.2
        else pe.2)
        = (if pe.1.requiresGrad then beta * pe.2 + (1 - beta) * pe.1.data
            else pe.2) := by
    intro pe
    by_cases hg : pe.1.requiresGrad
    · by_cases hs : stage ≠ 3 <;> simp [hg, hs, emaBlend] <;> ring
    · simp [hg]
  refine ⟨?_, ?_, ?_⟩
  · intro st h
    rw [moving_average_of_not_dvd accum stage beta params st h]
  · obtain ⟨m, hm⟩ : ∃ m, accum = m + 1 := ⟨accum - 1, by omega⟩
    subst hm
    have hpre : runMovingAverage (m + 1) stage beta params m ⟨0, shadows⟩
        = ⟨m, shadows⟩ := by
      simpa using runMovingAverage_noop (m + 1) stage beta params m 0 shadows (by omega)
    have hlast : runMovingAverage (m + 1) stage beta params (m + 1) ⟨0, shadows⟩
        = moving_average (m + 1) stage beta params ⟨m, shadows⟩ := by
      rw [runMovingAverage, Function.iterate_succ_apply']
      exact congrArg _ hpre
    rw [hlast, moving_average_of_dvd (m + 1) stage beta params ⟨m, shadows⟩
      (Nat.mod_self (m + 1))]
    rw [EmaState.mk.injEq]
    exact ⟨rfl, List.map_congr_left (fun pe _ => hfun pe)⟩
  · intro st i hfalse
    by_cases h : (st.timeSteps + 1) % accum = 0
    · have hi : i.1 < (params.zip st.shadows).length := i.2
      have hish : i.1 < st.shadows.length := by
        have hz : (params.zip st.shadows).length
            = min params.length st.shadows.length := by
          simp
        omega
      rw [moving_average_of_dvd accum stage beta params st h]
      have hmap : i.1 < ((params.zip st.shadows).map (fun pe : Param × ℚ =>
          if pe.1.requiresGrad then
            if stage ≠ 3 then emaBlend beta pe.1.data pe.2
            else emaBlend beta pe.1.data pe.2
          else pe.2)).length := by
        rw [List.length_map]
        exact hi
      rw [List.getD_eq_getElem _ _ hmap, List.getD_eq_getElem _ _ hish,
        List.getElem_map]
      rw [List.get_eq_getElem] at hfalse
      rw [List.getElem_zip] at hfalse ⊢
      simp only at hfalse ⊢
      simp [hfalse]
    · rw [moving_average_of_not_dvd accum stage beta params st h]

/-- Witness for C3 at `accumulated_gradient = 2`, `stage = 3`,
`beta = 1 / 2`, one trainable parameter pair and one frozen pair. -/
theorem moving_average_spec_witness :
    0 < 2 ∧
    ((∀ st : EmaState, (st.timeSteps + 1) % 2 ≠ 0 →
        (moving_average 2 3 (1 / 2) [⟨true, 3⟩, ⟨false, 5⟩] st).shadows
          = st.shadows)
      ∧ runMovingAverage 2 3 (1 / 2) [⟨true, 3⟩, ⟨false, 5⟩] 2 ⟨0, [1, 7]⟩
          = ⟨2, (([⟨true, 3⟩, ⟨false, 5⟩] : List Param).zip ([1, 7] : List ℚ)).map
              (fun pe =>
                if pe.1.requiresGrad then (1 / 2) * pe.2 + (1 - 1 / 2) * pe.1.data
                else pe.2)⟩
      ∧ (∀ st : EmaState,
          ∀ i : Fin (([⟨true, 3⟩, ⟨false, 5⟩] : List Param).zip st.shadows).length,
          ((([⟨true, 3⟩, ⟨false, 5⟩] : List Param).zip st.shadows).get i).1.requiresGrad
              = false →
            (moving_average 2 3 (1 / 2) [⟨true, 3⟩, ⟨false, 5⟩] st).shadows.getD i.1 0
              = st.shadows.getD i.1 0)) :=
  ⟨by decide, moving_average_spec 2 3 (1 / 2) [⟨true, 3⟩, ⟨false, 5⟩] [1, 7] (by decide)⟩

/-! ### Metric collectives (`all_reduce` lines 310-331, `all_gather` lines 333-346)

A Python value given to the collectives is a tensor (a buffer of exact
rationals), a scalar (an `int` or a `float`), or a string-keyed mapping of
such values; the mapping is modelled as an association structure
(`dcons`/`dnil`), mirroring the recursion over `data.items()`.  The
distributed view `DData` carries, at every leaf, the list of per-rank
contributions (index `r` is rank `r`), all ranks holding the same mapping
structure; `rankView r` projects out the local value of rank `r`.  The
transport primitive `dist.all_reduce` combines the per-rank buffers
elementwise (SUM or MAX), and `dist.all_gather` concatenates them in rank
order — exactly how the code drives them. -/

inductive PyVal where
  | pint : ℤ → PyVal
  | pfloat : ℚ → PyVal
  deriving DecidableEq, Repr

/-- Numeric value of a Python scalar (exact arithmetic stands in for
float32). -/
def PyVal.toRat : PyVal → ℚ
  | .pint n => (n : ℚ)
  | .pfloat q => q

/-- A local (single-process) value at the public interface of the
collectives. -/
inductive Data where
  | tensor : List ℚ → Data
  | scalar : PyVal → Data
  | dnil : Data
  | dcons : String → Data → Data → Data
  deriving DecidableEq, Repr

/-- The distributed view of a value: every leaf carries one contribution
per rank. -/
inductive DData where
  | tensor : List (List ℚ) → DData
  | scalar : List PyVal → DData
  | dnil : DData
  | dcons : String → DData → DData → DData
  deriving DecidableEq, Repr

/-- Local value held by rank `r`. -/
def rankView (r : ℕ) : DData → Data
  | .tensor bufs => .tensor (bufs.getD r [])
  | .scalar vs => .scalar (vs.getD r (.pfloat 0))
  | .dnil => .dnil
  | .dcons k v rest => .dcons k (rankView r v) (rankView r rest)

/-- Leaf rank-count well-formedness: every leaf holds exactly `ws`
contributions. -/
def ranksOK (ws : ℕ) : DData → Bool
  | .tensor bufs => bufs.length == ws
  | .scalar vs => vs.length == ws
  | .dnil => true
  | .dcons _ v rest => ranksOK ws v && ranksOK ws rest

inductive ReduceOp where
  | mean | max | sum
  deriving DecidableEq, Repr

/-- Elementwise sum of the per-rank buffers: semantics of
`dist.all_reduce(data, op=ReduceOp.SUM)`. -/
def sumBufs : List (List ℚ) → List ℚ
  | [] => []
  | b :: rest => rest.foldl (fun acc x => acc.zipWith (· + ·) x) b

/-- Elementwise maximum of the per-rank buffers: semantics of
`dist.all_reduce(data, op=ReduceOp.MAX)`. -/
def maxBufs : List (List ℚ) → List ℚ
  | [] => []
  | b :: rest => rest.foldl (fun acc x => acc.zipWith max x) b

/-- Per-leaf reduction as the code drives the transport: for `mean` every
rank first divides its own buffer by `world_size` (`data /= self.world_size`)
and the transport then sums; `max` maps to the MAX reduction, everything
else to SUM. -/
def combineBufs (ws : ℕ) : ReduceOp → List (List ℚ) → List ℚ
  | .mean, bufs => sumBufs (bufs.map (fun b => b.map (fun x => x / (ws : ℚ))))
  | .sum, bufs => sumBufs bufs
  | .max, bufs => maxBufs bufs

/-- The `all_reduce` method: recurse over mapping entries; wrap a scalar
leaf into a single-element buffer (`torch.Tensor([data])`), reduce, and
demote the result back with `.item()` — which always yields a Python
float; tensor leaves keep their buffer shape. -/
def all_reduce (ws : ℕ) (op : ReduceOp) : DData → Data
  | .tensor bufs => .tensor (combineBufs ws op bufs)
  | .scalar vs =>
    .scalar (.pfloat ((combineBufs ws op (vs.map (fun v => [v.toRat]))).getD 0 0))
  | .dnil => .dnil
  | .dcons k v rest => .dcons k (all_reduce ws op v) (all_reduce ws op rest)

/-- The `all_gather` method: recurse over mapping entries; wrap scalar
leaves into single-element buffers; the transport fills one slot per rank
and `torch.cat` concatenates the slots in rank order (the per-leaf
contribution list has one entry per rank). -/
def all_gather : DData → Data
  | .tensor bufs => .tensor bufs.flatten
  | .scalar vs => .tensor ((vs.map (fun v => [v.toRat])).flatten)
  | .dnil => .dnil
  | .dcons k v rest => .dcons k (all_gather v) (all_gather rest)

/-- Key list of a local mapping. -/
def Data.keys : Data → List String
  | .dcons k _ rest => k :: rest.keys
  | _ => []

/-- Key list of a distributed mapping. -/
def DData.keys : DData → List String
  | .dcons k _ rest => k :: rest.keys
  | _ => []

/-- Python `==` on results: numeric comparison of scalars (`5 == 5.0` is
true in Python regardless of int/float type), elementwise equality of
tensors, and key-wise comparison of mappings. -/
def pyEq : Data → Data → Bool
  | .tensor xs, .tensor ys => decide (xs = ys)
  | .scalar a, .scalar b => decide (a.toRat = b.toRat)
  | .dnil, .dnil => true
  | .dcons k v r, .dcons k₂ v₂ r₂ => decide (k = k₂) && pyEq v v₂ && pyEq r r₂
  | _, _ => false

/-- Leaf well-formedness for the gather identity: every leaf is a tensor
(`all_gather` promotes scalar leaves to tensors, so the identity can hold
only on tensor leaves). -/
def tensorLeaves : DData → Bool
  | .tensor _ => true
  | .scalar _ => false
  | .dnil => true
  | .dcons _ v rest => tensorLeaves v && tensorLeaves rest

lemma combineBufs_one (op : ReduceOp) (b : List ℚ) : combineBufs 1 op [b] = b := by
  cases op with
  | mean => simp [combineBufs, sumBufs]
  | max => simp [combineBufs, maxBufs]
  | sum => simp [combineBufs, sumBufs]

lemma flatten_map_singleton {α β : Type} (f : α → β) (l : List α) :
    (l.map (fun a => [f a])).flatten = l.map f := by
  induction l with
  | nil => rfl
  | cons a rest ih => simp [ih]

lemma gather_scalar_ints (l : List ℕ) :
    all_gather (DData.scalar (l.map (fun i : ℕ => PyVal.pint (Int.ofNat i))))
      = Data.tensor (l.map (fun i : ℕ => (i : ℚ))) := by
  induction l with
  | nil => rfl
  | cons a rest ih =>
    rw [all_gather, Data.tensor.injEq] at ih
    rw [all_gather, Data.tensor.injEq, List.map_cons, List.map_cons,
      List.flatten_cons, List.singleton_append, List.map_cons, ih]
    rw [List.cons.injEq]
    refine ⟨?_, rfl⟩
    simp [PyVal.toRat]

lemma all_reduce_keys (ws : ℕ) (op : ReduceOp) :
    ∀ e : DData, (all_reduce ws op e).keys = e.keys := by
  intro e
  induction e with
  | tensor bufs => rfl
  | scalar vs => rfl
  | dnil => rfl
  | dcons k v rest ihv ihr => simp [all_reduce, Data.keys, DData.keys, ihr]

/-- C4: `all_reduce` preserves the key set of any mapping for every op,
reduces each entry independently of its siblings, and on a single-process
group the result is Python-equal to the local input for all three ops
(`mean` included: dividing by `world_size = 1` is the identity). -/
theorem all_reduce_spec (ws : ℕ) (op : ReduceOp) (d : DData)
    (hd : ranksOK 1 d = true) :
    (∀ e : DData, (all_reduce ws op e).keys = e.keys)
      ∧ (∀ (k : String) (v rest : DData),
          all_reduce ws op (DData.dcons k v rest)
            = Data.dcons k (all_reduce ws op v) (all_reduce ws op rest))
      ∧ pyEq (all_reduce 1 op d) (rankView 0 d) = true := by
  refine ⟨all_reduce_keys ws op, fun k v rest => rfl, ?_⟩
  induction d with
  | tensor bufs =>
    obtain ⟨b, hb⟩ := List.length_eq_one.mp (by simpa [ranksOK] using hd)
    subst hb
    simp [all_reduce, rankView, combineBufs_one, pyEq]
  | scalar vs =>
    obtain ⟨v, hv⟩ := List.length_eq_one.mp (by simpa [ranksOK] using hd)
    subst hv
    simp [all_reduce, rankView, combineBufs_one, pyEq, PyVal.toRat]
  | dnil => rfl
  | dcons k v rest ihv ihr =>
    rw [ranksOK, Bool.and_eq_true] at hd
    simp [all_reduce, rankView, pyEq, ihv hd.1, ihr hd.2]

/-- Witness for C4 on a two-entry mapping holding an integer scalar and a
tensor, with `ws = 5` and `op = mean` for the generic conjuncts. -/
theorem all_reduce_spec_witness :
    ranksOK 1 (DData.dcons "loss" (.scalar [.pint 2])
        (.dcons "acc" (.tensor [[1, 2]]) .dnil)) = true
      ∧ ((∀ e : DData, (all_reduce 5 ReduceOp.mean e).keys = e.keys)
          ∧ (∀ (k : String) (v rest : DData),
              all_reduce 5 ReduceOp.mean (DData.dcons k v rest)
                = Data.dcons k (all_reduce 5 ReduceOp.mean v)
                    (all_reduce 5 ReduceOp.mean rest))
          ∧ pyEq
              (all_reduce 1 ReduceOp.mean
                (DData.dcons "loss" (.scalar [.pint 2])
                  (.dcons "acc" (.tensor [[1, 2]]) .dnil)))
              (rankView 0
                (DData.dcons "loss" (.scalar [.pint 2])
                  (.dcons "acc" (.tensor [[1, 2]]) .dnil))) = true) :=
  ⟨by decide,
    all_reduce_spec 5 ReduceOp.mean
      (DData.dcons "loss" (.scalar [.pint 2])
        (.dcons "acc" (.tensor [[1, 2]]) .dnil)) (by decide)⟩

/-- C5 (amended): on a single-process group `all_gather` returns
tensor-leaf data unchanged (scalar leaves are instead promoted to
one-element tensors, see the counterexample); on an `n`-process group where
rank `i` contributes the integer `i` at a leaf, every process receives the
rank-ordered concatenation `[0, 1, ..., n-1]`; mapping structure and key
sets are preserved recursively. -/
theorem all_gather_spec (n : ℕ) (d : DData) (hd : ranksOK 1 d = true)
    (ht : tensorLeaves d = true) :
    all_gather d = rankView 0 d
      ∧ all_gather (DData.scalar ((List.range n).map
            (fun i : ℕ => PyVal.pint (Int.ofNat i))))
          = Data.tensor ((List.range n).map (fun i : ℕ => (i : ℚ)))
      ∧ (∀ (k : String) (v rest : DData),
          all_gather (DData.dcons k v rest)
            = Data.dcons k (all_gather v) (all_gather rest))
      ∧ (∀ e : DData, (all_gather e).keys = e.keys) := by
  refine ⟨?_, ?_, fun k v rest => rfl, ?_⟩
  · induction d with
    | tensor bufs =>
      obtain ⟨b, hb⟩ := List.length_eq_one.mp (by simpa [ranksOK] using hd)
      subst hb
      simp [all_gather, rankView]
    | scalar vs => simp [tensorLeaves] at ht
    | dnil => rfl
    | dcons k v rest ihv ihr =>
      rw [ranksOK, Bool.and_eq_true] at hd
      rw [tensorLeaves, Bool.and_eq_true] at ht
      simp [all_gather, rankView, ihv hd.1 ht.1, ihr hd.2 ht.2]
  · exact gather_scalar_ints (List.range n)
  · intro e
    induction e with
    | tensor bufs => rfl
    | scalar vs => rfl
    | dnil => rfl
    | dcons k v rest ihv ihr => simp [all_gather, Data.keys, DData.keys, ihr]

/-- Witness for C5 with three processes and a single tensor-leaf mapping on
one process. -/
theorem all_gather_spec_witness :
    ranksOK 1 (DData.dcons "x" (.tensor [[3, 4]]) .dnil) = true
      ∧ tensorLeaves (DData.dcons "x" (.tensor [[3, 4]]) .dnil) = true
      ∧ (all_gather (DData.dcons "x" (.tensor [[3, 4]]) .dnil)
            = rankView 0 (DData.dcons "x" (.tensor [[3, 4]]) .dnil)
          ∧ all_gather (DData.scalar ((List.range 3).map
                (fun i : ℕ => PyVal.pint (Int.ofNat i))))
              = Data.tensor ((List.range 3).map (fun i : ℕ => (i : ℚ)))
          ∧ (∀ (k : String) (v rest : DData),
              all_gather (DData.dcons k v rest)
                = Data.dcons k (all_gather v) (all_gather rest))
          ∧ (∀ e : DData, (all_gather e).keys = e.keys)) :=
  ⟨by decide, by decide,
    all_gather_spec 3 (DData.dcons "x" (.tensor [[3, 4]]) .dnil)
      (by decide) (by decide)⟩

/-- Counterexample to C5 as stated: on a single-process group a scalar leaf
is not returned unchanged — the code wraps it in `torch.Tensor([data])` and
returns the concatenation, a one-element tensor, which even Python `==`
distinguishes from the original scalar. -/
theorem all_gather_scalar_counterexample :
    all_gather (DData.scalar [PyVal.pint 5]) = Data.tensor [5]
      ∧ all_gather (DData.scalar [PyVal.pint 5])
          ≠ rankView 0 (DData.scalar [PyVal.pint 5])
      ∧ pyEq (all_gather (DData.scalar [PyVal.pint 5]))
          (rankView 0 (DData.scalar [PyVal.pint 5])) = false := by
  decide

/-- C9: every non-tensor (scalar) leaf comes back from `all_reduce` as a
Python float — the code reduces the single-element wrapper buffer and
demotes it with `.item()` — so an integer scalar input returns with a
different type (a float) at the public interface. -/
theorem all_reduce_scalar_item (ws : ℕ) (op : ReduceOp) (vs : List PyVal)
    (n : ℤ) :
    (∃ q : ℚ, all_reduce ws op (DData.scalar vs) = Data.scalar (PyVal.pfloat q))
      ∧ all_reduce ws op (DData.scalar [PyVal.pint n])
          ≠ rankView 0 (DData.scalar [PyVal.pint n]) := by
  constructor
  · refine ⟨(combineBufs ws op (vs.map (fun v : PyVal => [v.toRat]))).getD 0 0, ?_⟩
    rfl
  · simp [all_reduce, rankView]

/-! ### Engine preparation (`prepare` lines 146-158, `ds_init_train_model` lines 183-188)

The entries handed to `prepare` are processed strictly left to right: a
tuple entry is asserted to have length 3 and then handed to
`ds_init_train_model` (one engine `initialize` call), a non-tuple entry
goes to `ds_init_eval_model` (also one engine `initialize` call); a tuple
of any other length raises `AssertionError` with the f-string message at
that point, after the engine calls already made for earlier entries.  The
embedding records the engine calls in order and returns `Except.error` with
the message and the calls made so far when the assertion fires.  The final
`return ret[0] if len(ret) == 1 else ret` unwraps a single prepared entry. -/

inductive PrepEntry where
  | tup : ℕ → PrepEntry
  | bare : PrepEntry
  deriving DecidableEq, Repr

inductive EngineCall where
  | initTrain
  | initEval
  deriving DecidableEq, Repr

inductive Prepared where
  | trainEngine
  | evalEngine
  deriving DecidableEq, Repr

inductive PrepReturn where
  | single : Prepared → PrepReturn
  | list : List Prepared → PrepReturn
  deriving DecidableEq, Repr

/-- Message of the failed assertion
`assert len(arg) == 3, f\'Expect (model, optimizer, scheduler) pair, ...\'`. -/
def assertMsg (n : ℕ) : String :=
  "Expect (model, optimizer, scheduler) pair, got a tuple with size \"" ++
    toString n ++ "\""

/-- Engine call made for a well-formed entry. -/
def callOf : PrepEntry → EngineCall
  | .tup _ => .initTrain
  | .bare => .initEval

/-- Entry whose shape passes the assertion. -/
def entryOK : PrepEntry → Bool
  | .tup n => n == 3
  | .bare => true

/-- The `for arg in models_or_model_optim_pairs` loop: `ret` accumulates
prepared entries, `calls` the engine `initialize` calls in order. -/
def prepareLoop : List PrepEntry → List Prepared → List EngineCall →
    Except (String × List EngineCall) (List Prepared × List EngineCall)
  | [], ret, calls => .ok (ret, calls)
  | .tup n :: rest, ret, calls =>
    if n = 3 then
      prepareLoop rest (ret ++ [.trainEngine]) (calls ++ [.initTrain])
    else .error (assertMsg n, calls)
  | .bare :: rest, ret, calls =>
    prepareLoop rest (ret ++ [.evalEngine]) (calls ++ [.initEval])

/-- The `prepare` method: run the loop, then
`return ret[0] if len(ret) == 1 else ret`. -/
def prepare (entries : List PrepEntry) :
    Except (String × List EngineCall) (PrepReturn × List EngineCall) :=
  match prepareLoop entries [] [] with
  | .error e => .error e
  | .ok (ret, calls) =>
    .ok (if h : ret.length = 1 then PrepReturn.single (ret.get ⟨0, by omega⟩)
         else PrepReturn.list ret, calls)

lemma prepareLoop_bad (n : ℕ) (hn : n ≠ 3) (post : List PrepEntry) :
    ∀ (pre : List PrepEntry), (∀ e ∈ pre, entryOK e = true) →
      ∀ (ret : List Prepared) (calls : List EngineCall),
        prepareLoop (pre ++ PrepEntry.tup n :: post) ret calls
          = .error (assertMsg n, calls ++ pre.map callOf) := by
  intro pre
  induction pre with
  | nil =>
    intro _ ret calls
    simp [prepareLoop, hn]
  | cons e rest ih =>
    intro hok ret calls
    have he : entryOK e = true := hok e (List.mem_cons_self e rest)
    have hrest : ∀ e₂ ∈ rest, entryOK e₂ = true :=
      fun e₂ hm => hok e₂ (List.mem_cons_of_mem e hm)
    cases e with
    | tup m =>
      have hm3 : m = 3 := by simpa [entryOK] using he
      subst hm3
      rw [List.cons_append, prepareLoop, if_pos rfl,
        ih hrest (ret ++ [Prepared.trainEngine]) (calls ++ [EngineCall.initTrain])]
      simp [callOf]
    | bare =>
      rw [List.cons_append, prepareLoop,
        ih hrest (ret ++ [Prepared.evalEngine]) (calls ++ [EngineCall.initEval])]
      simp [callOf]

/-- C6 (amended): a tuple entry of length other than 3 makes `prepare` fail
with the descriptive `AssertionError` message of the `assert`, and no
engine `initialize` call is made for the offending entry or for any entry
after it; however, entries preceding the malformed tuple are each handed to
the engine before the failure (validation is interleaved with
initialization, not performed up front), so the failure precedes every
engine call only when the malformed tuple comes first. -/
theorem prepare_bad_tuple (pre post : List PrepEntry) (n : ℕ) (hn : n ≠ 3)
    (hpre : ∀ e ∈ pre, entryOK e = true) :
    prepare (pre ++ PrepEntry.tup n :: post)
      = .error (assertMsg n, pre.map callOf) := by
  rw [prepare, prepareLoop_bad n hn post pre hpre [] []]
  rfl

/-- Witness for C6 with one evaluation entry and one training entry before
a malformed 2-tuple. -/
theorem prepare_bad_tuple_witness :
    (2 ≠ 3 ∧ ∀ e ∈ [PrepEntry.bare, PrepEntry.tup 3], entryOK e = true)
      ∧ prepare ([PrepEntry.bare, PrepEntry.tup 3] ++ PrepEntry.tup 2 :: [PrepEntry.bare])
          = .error (assertMsg 2, [PrepEntry.bare, PrepEntry.tup 3].map callOf) :=
  ⟨⟨by decide, by decide⟩,
    prepare_bad_tuple [PrepEntry.bare, PrepEntry.tup 3] [PrepEntry.bare] 2
      (by decide) (by decide)⟩

/-- Counterexample to C6 as stated: with a well-formed 3-tuple before the
malformed 2-tuple, the failure happens only after an engine `initialize`
call has been made for the first entry, so the failure does not occur
before any engine call. -/
theorem prepare_fail_fast_counterexample :
    prepare [PrepEntry.tup 3, PrepEntry.tup 2]
        = .error (assertMsg 2, [EngineCall.initTrain])
      ∧ ([EngineCall.initTrain] : List EngineCall) ≠ [] := by
  exact ⟨rfl, by decide⟩

/-- C10: `prepare` with zero entries returns the empty list (the
single-entry unwrapping `ret[0]` applies only to exactly one entry, as the
second conjunct illustrates), raises no validation failure, and makes no
engine `initialize` call. -/
theorem prepare_empty :
    prepare [] = .ok (PrepReturn.list [], [])
      ∧ prepare [PrepEntry.bare]
          = .ok (PrepReturn.single Prepared.evalEngine, [EngineCall.initEval]) := by
  exact ⟨rfl, rfl⟩

/-- Aggregate train batch size written into the engine configuration by
`ds_init_train_model`: `train_batch_size *= 2` exactly under
`self.is_rlhf and is_actor and self.args.pretrain_data is not None`. -/
def ds_train_batch_size (is_rlhf is_actor : Bool) (pretrain_data : Option String)
    (train_batch_size : ℕ) : ℕ :=
  if is_rlhf && is_actor && pretrain_data.isSome then train_batch_size * 2
  else train_batch_size

/-- C8: the aggregate train batch size handed to the engine configuration
is the configured one doubled exactly when reinforcement-learning mode is
active, a pretraining corpus is configured, and the entry is the Actor
model; otherwise it is the configured value unchanged. -/
theorem ds_train_batch_size_doubling (is_rlhf is_actor : Bool)
    (pretrain_data : Option String) (tb : ℕ) (htb : 0 < tb) :
    (ds_train_batch_size is_rlhf is_actor pretrain_data tb = 2 * tb
        ↔ (is_rlhf = true ∧ is_actor = true ∧ pretrain_data.isSome = true))
      ∧ ((is_rlhf = true ∧ is_actor = true ∧ pretrain_data.isSome = true) →
          ds_train_batch_size is_rlhf is_actor pretrain_data tb = 2 * tb)
      ∧ (¬(is_rlhf = true ∧ is_actor = true ∧ pretrain_data.isSome = true) →
          ds_train_batch_size is_rlhf is_actor pretrain_data tb = tb) := by
  cases is_rlhf <;> cases is_actor <;> cases pretrain_data <;>
    simp [ds_train_batch_size] <;> omega

/-- Witness for C8 in reinforcement-learning mode with a pretraining corpus
on the Actor entry, `train_batch_size = 4`. -/
theorem ds_train_batch_size_doubling_witness :
    0 < 4
      ∧ ((ds_train_batch_size true true (some "corpus") 4 = 2 * 4
            ↔ (true = true ∧ true = true ∧ (some "corpus").isSome = true))
          ∧ ((true = true ∧ true = true ∧ (some "corpus").isSome = true) →
              ds_train_batch_size true true (some "corpus") 4 = 2 * 4)
          ∧ (¬(true = true ∧ true = true ∧ (some "corpus").isSome = true) →
              ds_train_batch_size true true (some "corpus") 4 = 4)) :=
  ⟨by decide, ds_train_batch_size_doubling true true (some "corpus") 4 (by decide)⟩

/-! ### Weights-only save under ZeRO stage 3 (`save_model`, lines 272-294)

Every process iterates the unwrapped model\'s named parameters in the same
order; for each one it enters the scoped `deepspeed.zero.GatheredParameters`
block (the collective gather), enabled exactly when `_z3_params_to_fetch`
finds the parameter still partitioned; only rank 0 stores the gathered
value into `output_state_dict`.  Afterwards rank 0 alone copies the named
buffers and writes the mapping with `torch.save`. -/

structure NamedParam where
  name : String
  partitioned : Bool
  deriving DecidableEq, Repr

structure SaveOutcome where
  gatherScopes : ℕ
  enabledGathers : ℕ
  output : List String
  wrote : Bool
  deriving DecidableEq, Repr

/-- Body of the `for k, v in model_to_save.named_parameters()` loop as run
by the process with the given rank. -/
def gatherParamStep (rank : ℕ) (acc : SaveOutcome) (p : NamedParam) : SaveOutcome :=
  { gatherScopes := acc.gatherScopes + 1
  , enabledGathers := acc.enabledGathers + (if p.partitioned then 1 else 0)
  , output := if rank = 0 then acc.output ++ [p.name] else acc.output
  , wrote := acc.wrote }

/-- The stage-3 branch of `save_model` on the process with the given rank:
gather every named parameter (all ranks), then on rank 0 only, copy the
named buffers and write the output mapping. -/
def save_model_stage3 (rank : ℕ) (params : List NamedParam)
    (buffers : List String) : SaveOutcome :=
  let afterParams := params.foldl (gatherParamStep rank)
    { gatherScopes := 0, enabledGathers := 0, output := [], wrote := false }
  if rank = 0 then
    { afterParams with output := afterParams.output ++ buffers, wrote := true }
  else afterParams

lemma foldl_gatherScopes (rank : ℕ) (params : List NamedParam) :
    ∀ acc : SaveOutcome,
      (params.foldl (gatherParamStep rank) acc).gatherScopes
        = acc.gatherScopes + params.length := by
  induction params with
  | nil => intro acc; simp
  | cons p rest ih =>
    intro acc
    rw [List.foldl_cons, ih]
    simp [gatherParamStep]
    omega

lemma foldl_enabledGathers (rank : ℕ) (params : List NamedParam) :
    ∀ acc : SaveOutcome,
      (params.foldl (gatherParamStep rank) acc).enabledGathers
        = acc.enabledGathers + (params.filter (fun p => p.partitioned)).length := by
  induction params with
  | nil => intro acc; simp
  | cons p rest ih =>
    intro acc
    rw [List.foldl_cons, ih]
    by_cases hp : p.partitioned = true
    · simp [gatherParamStep, hp]
      omega
    · simp [gatherParamStep, hp]

lemma foldl_output (rank : ℕ) (params : List NamedParam) :
    ∀ acc : SaveOutcome,
      (params.foldl (gatherParamStep rank) acc).output
        = if rank = 0 then acc.output ++ params.map NamedParam.name
          else acc.output := by
  induction params with
  | nil => intro acc; by_cases h : rank = 0 <;> simp [h]
  | cons p rest ih =>
    intro acc
    rw [List.foldl_cons, ih]
    by_cases h : rank = 0 <;> simp [gatherParamStep, h]

lemma foldl_wrote (rank : ℕ) (params : List NamedParam) :
    ∀ acc : SaveOutcome,
      (params.foldl (gatherParamStep rank) acc).wrote = acc.wrote := by
  induction params with
  | nil => intro acc; rfl
  | cons p rest ih =>
    intro acc
    rw [List.foldl_cons, ih]
    rfl

/-- C7: in the stage-3 weights-only save, every process enters the scoped
gather exactly once per named parameter — the count equals the number of
named parameters at every rank, non-zero ranks included (no early return)
— and likewise enables the collective for the same partitioned parameters
at every rank; but only rank 0 accumulates the gathered data, copies the
named buffers, and writes the output mapping. -/
theorem save_model_stage3_spec (rank : ℕ) (params : List NamedParam)
    (buffers : List String) :
    (save_model_stage3 rank params buffers).gatherScopes = params.length
      ∧ (save_model_stage3 rank params buffers).enabledGathers
          = (params.filter (fun p => p.partitioned)).length
      ∧ (save_model_stage3 (rank + 1) params buffers).output = []
      ∧ (save_model_stage3 (rank + 1) params buffers).wrote = false
      ∧ (save_model_stage3 0 params buffers).output
          = params.map NamedParam.name ++ buffers
      ∧ (save_model_stage3 0 params buffers).wrote = true := by
  refine ⟨?_, ?_, ?_, ?_, ?_, ?_⟩
  · rw [save_model_stage3]
    by_cases h : rank = 0 <;> simp [h, foldl_gatherScopes]
  · rw [save_model_stage3]
    by_cases h : rank = 0 <;> simp [h, foldl_enabledGathers]
  · rw [save_model_stage3]
    simp [foldl_output]
  · rw [save_model_stage3]
    simp [foldl_wrote]
  · rw [save_model_stage3]
    simp [foldl_output]
  · rw [save_model_stage3]
    simp

end OpenRLHF
